import Mathlib

/-!
# Verification of the Hevy-Coach Progressive-Overload Decision Engine

Shallow embedding of the decision logic of `hevy_stats.py` (verdict engine,
progression tracker, decision-quality auditor, periodization aggregator,
exclusion filter, weight recommendation) over exact rational arithmetic,
together with theorems checking the natural-language specification.

Floating-point numbers of the source are modelled as rationals ℚ; pandas
`NaN` / Python `None` for a missing RPE is modelled as `Option ℚ = none`.
Python truthiness of a numeric RPE value (`if rpe and ...`) is modelled
explicitly as a `≠ 0` test on the defined value.
-/

namespace HevyCoach

/-- One performed set, as produced by `events_to_df`:
`weight` (kg, missing defaults to 0), `reps` (missing defaults to 0),
`rpe` (missing stays undefined).  Rows are ordered by `set_index`. -/
structure SetRec where
  weight : ℚ
  reps : ℚ
  rpe : Option ℚ
  deriving DecidableEq, Repr

/-- The defined, nonzero RPE values of a session in set order: the source
collects `row["rpe"]` guarded by `if row["rpe"] and not pd.isna(row["rpe"])`,
so `None`/`NaN` and the falsy value `0` are both skipped. -/
def rpeValues (sets : List SetRec) : List ℚ :=
  sets.filterMap (fun s =>
    match s.rpe with
    | none => none
    | some v => if v = 0 then none else some v)

/-- `peak_rpe = max(rpe_values) if rpe_values else None`. -/
def peakRpe (sets : List SetRec) : Option ℚ :=
  match rpeValues sets with
  | [] => none
  | x :: xs => some (xs.foldl max x)

/-- `final_rpe = rpe_values[-1] if rpe_values else None`. -/
def finalRpe (sets : List SetRec) : Option ℚ :=
  (rpeValues sets).getLast?

/-- `session_data["weight"].mean()`. -/
def avgWeight (sets : List SetRec) : ℚ :=
  (sets.map (·.weight)).sum / (sets.length : ℚ)

/-- `session_data["reps"].mean()`. -/
def avgReps (sets : List SetRec) : ℚ :=
  (sets.map (·.reps)).sum / (sets.length : ℚ)

/-- pandas mean of the `rpe` column: `NaN` entries are skipped, and the mean
is itself `NaN` (here `none`) when no entry is defined.  Zeros count. -/
def pandasMeanRpe (sets : List SetRec) : Option ℚ :=
  let defined := sets.filterMap (·.rpe)
  match defined with
  | [] => none
  | _ => some (defined.sum / (defined.length : ℚ))

/-- The verdict strings of `get_last_session_only`, as a closed variant type. -/
inductive Verdict where
  | tooHeavy
  | tooLight
  | optimal
  | inRange
  | noTarget
  deriving DecidableEq, Repr

/-- Rep-based classification used when no RPE decides (the
`avg_reps < rep_range[0]` / `> rep_range[1]` / else chain). -/
def repVerdict (lo hi : ℚ) (reps : ℚ) : Verdict :=
  if reps < lo then .tooHeavy
  else if reps > hi then .tooLight
  else .inRange

/-- Python truthiness plus threshold test `if x and x >= t` on an optional
numeric (`None`/`NaN` falsy-or-failing, `0` falsy). -/
def truthyGe (x : Option ℚ) (t : ℚ) : Bool :=
  match x with
  | none => false
  | some v => decide (v ≠ 0) && decide (t ≤ v)

/-- Python truthiness plus threshold test `if x and x <= t` on an optional
numeric. -/
def truthyLe (x : Option ℚ) (t : ℚ) : Bool :=
  match x with
  | none => false
  | some v => decide (v ≠ 0) && decide (v ≤ t)

/-- The falsy-aware RPE projection used in the source's loops
(`if x and not pd.isna(x)`): a defined nonzero value passes, `None`/`NaN`
and 0 do not. -/
def nonzeroRpe (x : Option ℚ) : Option ℚ :=
  match x with
  | none => none
  | some v => if v = 0 then none else some v

/-- The verdict computation of `get_last_session_only` for one exercise of the
latest session.  `repRange` is the `REP_RANGE` entry (`none` when the exercise
is absent from the table; every configured entry of `rep_rules.py` is a pair
of numbers, modelled as `some (lo, hi)`). -/
def lastSessionVerdict (repRange : Option (ℚ × ℚ)) (sets : List SetRec) : Verdict :=
  match repRange with
  | none => .noTarget
  | some (lo, hi) =>
    match peakRpe sets with
    | some p =>
      if p ≠ 0 then
        if p ≥ 9.5 then .tooHeavy
        else if p ≤ 7 then .tooLight
        else if truthyGe (finalRpe sets) 9 then .optimal
        else if 7.5 ≤ p ∧ p ≤ 9 then .optimal
        else repVerdict lo hi (avgReps sets)
      else repVerdict lo hi (avgReps sets)
    | none => repVerdict lo hi (avgReps sets)

/-- The verdict strings of `analyze_exercise_evolution`, which distinguish the
RPE-driven variants `"⬇️ too heavy (RPE)"` / `"⬆️ too light (RPE)"`. -/
inductive EvoVerdict where
  | tooHeavyRpe
  | tooHeavy
  | tooLightRpe
  | tooLight
  | optimal
  | inRange
  | noTarget
  deriving DecidableEq, Repr

/-- Rep-based classification inside `analyze_exercise_evolution`. -/
def evoRepVerdict (lo hi : ℚ) (reps : ℚ) : EvoVerdict :=
  if reps < lo then .tooHeavy
  else if reps > hi then .tooLight
  else .inRange

/-- The per-session verdict computation of `analyze_exercise_evolution`. -/
def evolutionVerdict (repRange : Option (ℚ × ℚ)) (sets : List SetRec) : EvoVerdict :=
  match repRange with
  | none => .noTarget
  | some (lo, hi) =>
    match peakRpe sets with
    | some p =>
      if p ≠ 0 then
        if p ≥ 9.5 then .tooHeavyRpe
        else if p ≤ 7 then .tooLightRpe
        else if truthyGe (finalRpe sets) 9 then .optimal
        else if 7.5 ≤ p ∧ p ≤ 9 then .optimal
        else evoRepVerdict lo hi (avgReps sets)
      else evoRepVerdict lo hi (avgReps sets)
    | none => evoRepVerdict lo hi (avgReps sets)

/-! ## Progression Tracker (`get_exercise_progression`) -/

/-- Per-session aggregate of `get_exercise_progression` /
`detect_plateaus_and_periodization`. -/
structure SessionAgg where
  avg_weight : ℚ
  avg_reps : ℚ
  avg_rpe : Option ℚ
  total_volume : ℚ
  deriving DecidableEq, Repr

/-- Aggregate one date group exactly as the source does:
pandas column means plus `(weight * reps).sum()`. -/
def sessionAgg (sets : List SetRec) : SessionAgg :=
  { avg_weight := avgWeight sets
    avg_reps := avgReps sets
    avg_rpe := pandasMeanRpe sets
    total_volume := (sets.map (fun s => s.weight * s.reps)).sum }

/-- The per-exercise progression record built by `get_exercise_progression`. -/
structure ProgRecord where
  sessions : List SessionAgg
  weight_change : ℚ
  weight_change_pct : ℚ
  volume_change : ℚ
  volume_change_pct : ℚ
  trend_change_pct : ℚ
  is_stagnant : Bool
  sessions_count : ℕ
  deriving DecidableEq, Repr

/-- One calendar-day group of set records for one exercise. -/
structure DayGroup where
  date : ℤ
  sets : List SetRec
  deriving DecidableEq, Repr

/-- Insert into a descending list (used to model
`sorted(dates, reverse=True)`). -/
def insertDesc (d : ℤ) : List ℤ → List ℤ
  | [] => [d]
  | x :: xs => if x ≤ d then d :: x :: xs else x :: insertDesc d xs

/-- Sort a list of dates in descending order. -/
def sortDesc (l : List ℤ) : List ℤ := l.foldr insertDesc []

/-- `sorted(exercise_df["date"].unique(), reverse=True)`. -/
def uniqueDatesDesc (records : List (ℤ × SetRec)) : List ℤ :=
  sortDesc (records.map Prod.fst).dedup

/-- The per-date grouping of one exercise's records, newest date first. -/
def dayGroups (records : List (ℤ × SetRec)) : List DayGroup :=
  (uniqueDatesDesc records).map
    (fun d => ⟨d, (records.filter (fun r => r.1 = d)).map Prod.snd⟩)

/-- The body of `get_exercise_progression` for one exercise, on the date
groups (newest-first).  Returns `none` when fewer than 2 sessions exist
(`if len(session_dates) < 2: continue`). -/
def exerciseProgression (groups : List DayGroup) : Option ProgRecord :=
  match (groups.take 4).map (fun g => sessionAgg g.sets) with
  | latest :: previous :: rest =>
    let sessions := latest :: previous :: rest
    let weight_change := latest.avg_weight - previous.avg_weight
    let weight_change_pct :=
      if previous.avg_weight > 0 then weight_change / previous.avg_weight * 100 else 0
    let volume_change := latest.total_volume - previous.total_volume
    let volume_change_pct :=
      if previous.total_volume > 0 then volume_change / previous.total_volume * 100 else 0
    let weights := (sessions.take 3).map (·.avg_weight)
    let is_stagnant := decide (weights.dedup.length = 1) && decide (3 ≤ weights.length)
    let trend_change_pct :=
      if 3 ≤ sessions.length then
        let first_weight := (sessions.getLast?.getD latest).avg_weight
        if first_weight > 0 then
          (latest.avg_weight - first_weight) / first_weight * 100
        else 0
      else weight_change_pct
    some { sessions := sessions
           weight_change := weight_change
           weight_change_pct := weight_change_pct
           volume_change := volume_change
           volume_change_pct := volume_change_pct
           trend_change_pct := trend_change_pct
           is_stagnant := is_stagnant
           sessions_count := sessions.length }
  | _ => none

/-- `get_exercise_progression` restricted to one exercise, from its raw
`(date, set)` records. -/
def exerciseProgressionOfRecords (records : List (ℤ × SetRec)) : Option ProgRecord :=
  exerciseProgression (dayGroups records)

/-! ## Decision-Quality Auditor (`analyze_exercise_evolution`) -/

/-- Actual action inferred from the observed weight delta with the
±0.5 kg dead-band. -/
inductive Action where
  | increased
  | decreased
  | maintained
  deriving DecidableEq, Repr

/-- `weight_change > 0.5 → increased; < -0.5 → decreased; else maintained`. -/
def actualAction (weightChange : ℚ) : Action :=
  if weightChange > 0.5 then .increased
  else if weightChange < -0.5 then .decreased
  else .maintained

/-- Optimal action derived from the older session's verdict. -/
inductive OptAction where
  | decrease
  | increase
  | maintain
  | unknown
  deriving DecidableEq, Repr

/-- The verdict-to-optimal-action mapping of `analyze_exercise_evolution`. -/
def optimalAction (v : EvoVerdict) : OptAction :=
  match v with
  | .tooHeavy | .tooHeavyRpe => .decrease
  | .tooLight | .tooLightRpe => .increase
  | .optimal | .inRange => .maintain
  | .noTarget => .unknown

/-- The `decision_is_good` evaluation of `analyze_exercise_evolution`,
transcribed branch by branch.  `currentPeak`/`previousPeak` are the newer and
older session's `peak_rpe`; the Python truthiness guards on them are kept. -/
def decisionIsGood (opt : OptAction) (act : Action)
    (currentPeak previousPeak : Option ℚ) : Bool :=
  if opt = .decrease ∧ act = .decreased then true
  else if opt = .increase ∧ act = .increased then true
  else if opt = .maintain then
    if act = .maintained ∨ act = .increased then true
    else if truthyGe currentPeak 9 then true
    else if truthyGe previousPeak 9 then true
    else false
  else
    if act = .decreased ∧ truthyGe currentPeak 9.5 then true
    else if act = .increased ∧ truthyLe currentPeak 7.5 then true
    else if act = .maintained then true
    else false

/-- The fields of one entry of `sessions_analysis` that the decision-quality
loop reads. -/
structure SessAnalysis where
  avg_weight : ℚ
  peak_rpe : Option ℚ
  verdict : EvoVerdict
  deriving DecidableEq, Repr

/-- The audit loop of `analyze_exercise_evolution`: walk consecutive pairs
(newest-first list), skip pairs whose older verdict gives no target, and count
`(good_decisions, missed_opportunities)`. -/
def auditCounts : List SessAnalysis → ℕ × ℕ
  | current :: previous :: rest =>
    let (g, m) := auditCounts (previous :: rest)
    match optimalAction previous.verdict with
    | .unknown => (g, m)
    | opt =>
      if decisionIsGood opt (actualAction (current.avg_weight - previous.avg_weight))
          current.peak_rpe previous.peak_rpe
      then (g + 1, m)
      else (g, m + 1)
  | _ => (0, 0)

/-- `efficiency_score = (good / total * 100) if total > 0 else 0`. -/
def efficiencyScore (sessions : List SessAnalysis) : ℚ :=
  let gm := auditCounts sessions
  if gm.1 + gm.2 > 0 then (gm.1 : ℚ) / ((gm.1 : ℚ) + (gm.2 : ℚ)) * 100 else 0

/-! ## Periodization Aggregator (`detect_plateaus_and_periodization`) -/

/-- Which list of `detect_plateaus_and_periodization` an exercise lands in. -/
inductive ProgClass where
  | plateaued
  | progressing
  | smartAdjustment
  | regressing
  | steady
  deriving DecidableEq, Repr

/-- The `high_rpe_detected` computation for a declining exercise: any of the
last 3 sessions has a truthy `avg_rpe >= 9.5` (the first loop), or the truthy
non-`NaN` `avg_rpe` values of the last 3 sessions are nonempty with mean
`>= 9.0` (the second loop); both run only under `len(sessions) >= 2`. -/
def highRpeDetected (sessions : List SessionAgg) : Bool :=
  if 2 ≤ sessions.length then
    if (sessions.take 3).any (fun s => truthyGe s.avg_rpe 9.5) then true
    else
      let rpe_values := (sessions.take 3).filterMap (fun s => nonzeroRpe s.avg_rpe)
      decide (rpe_values ≠ []) && decide (9 ≤ rpe_values.sum / (rpe_values.length : ℚ))
  else false

/-- The per-exercise classification chain of `detect_plateaus_and_periodization`:
stagnant → plateaued; `trend_change_pct > 2` → progressing; `< -2` → smart
adjustment when `high_rpe_detected`, else regressing; otherwise no list. -/
def classifyProgression (r : ProgRecord) : ProgClass :=
  if r.is_stagnant then .plateaued
  else if r.trend_change_pct > 2 then .progressing
  else if r.trend_change_pct < -2 then
    if highRpeDetected r.sessions then .smartAdjustment else .regressing
  else .steady

/-! ## Set Record Normalizer exclusion filter (`filter_excluded_exercises`) -/

/-- Python `str.lower()` on one character of an ASCII exercise name. -/
def lowerChar (c : Char) : Char :=
  if 'A' ≤ c ∧ c ≤ 'Z' then Char.ofNat (c.toNat + 32) else c

/-- Python `str.lower()` on an exercise name, modelled on its character list
(the exclusion entries and the Hevy exercise names are ASCII). -/
def lowerName (s : List Char) : List Char := s.map lowerChar

/-- The `EXCLUDED_EXERCISES` list of `filter_excluded_exercises`. -/
def EXCLUDED_EXERCISES : List (List Char) :=
  ["Warm Up".toList, "Treadmill".toList, "Walking".toList, "Running".toList,
   "Elliptical".toList, "Bike".toList, "Stair Climber".toList, "Rest".toList,
   "Stretching".toList, "Meditation".toList, "Cardio".toList]

/-- A flat workout record as seen by the exclusion filter: only the exercise
name matters, the rest of the row is carried opaquely. -/
structure NamedRec where
  exercise : List Char
  set : SetRec
  deriving DecidableEq, Repr

/-- `df[~df["exercise"].str.lower().isin([ex.lower() for ex in EXCLUDED_EXERCISES])]`:
keep exactly the rows whose lower-cased name is not a member (exact equality)
of the lower-cased exclusion list. -/
def filter_excluded_exercises (rows : List NamedRec) : List NamedRec :=
  rows.filter (fun r =>
    !(EXCLUDED_EXERCISES.map lowerName).contains (lowerName r.exercise))

/-! ## Weight recommendation (`get_realistic_weight_recommendation`) -/

/-- Python 3 `round` to an integer: round half to even. -/
def pyRound (x : ℚ) : ℤ :=
  let f := ⌊x⌋
  let frac := x - (f : ℚ)
  if frac < 1/2 then f
  else if frac > 1/2 then f + 1
  else if f % 2 = 0 then f else f + 1

/-- Insert into an ascending list (used to model `sorted(set(...))`). -/
def insertAsc (d : ℚ) : List ℚ → List ℚ
  | [] => [d]
  | x :: xs => if d ≤ x then d :: x :: xs else x :: insertAsc d xs

/-- Sort a list of rationals in ascending order. -/
def sortAsc (l : List ℚ) : List ℚ := l.foldr insertAsc []

/-- Differences between consecutive elements of a list. -/
def consecDiffs : List ℚ → List ℚ
  | a :: b :: rest => (b - a) :: consecDiffs (b :: rest)
  | _ => []

/-- The increment inference of `get_realistic_weight_recommendation`:
start from 2.5; with at least two positive weights and at least two distinct
values, take the smallest consecutive difference in `(0, 10]` of the sorted
distinct weights, when any exists. -/
def inferIncrement (setsData : List SetRec) : ℚ :=
  let weights_used := (setsData.map (·.weight)).filter (fun w => 0 < w)
  if 2 ≤ weights_used.length then
    let unique_weights := sortAsc weights_used.dedup
    if 2 ≤ unique_weights.length then
      let diffs := consecDiffs unique_weights
      let common_increments := diffs.filter (fun d => 0 < d ∧ d ≤ 10)
      match common_increments with
      | [] => 2.5
      | c :: cs => cs.foldl min c
    else 2.5
  else 2.5

/-- `get_realistic_weight_recommendation(current_weight, target_change_pct,
sets_data)` transcribed: round the ideal weight to the nearest 2.5 kg when the
inferred increment is ≥ 2.5 and to the nearest 1 kg otherwise; if the result
lands within half an increment of the current weight, step a full increment in
the required direction; clamp at 0. -/
def get_realistic_weight_recommendation (current_weight target_change_pct : ℚ)
    (sets_data : List SetRec) : ℚ :=
  let ideal_weight := current_weight * target_change_pct
  let increment := inferIncrement sets_data
  let realistic_weight :=
    if 2.5 ≤ increment then (pyRound (ideal_weight / 2.5) : ℚ) * 2.5
    else (pyRound ideal_weight : ℚ)
  let nudged :=
    if |realistic_weight - current_weight| < increment * (1/2) then
      if target_change_pct < 1 then current_weight - increment
      else current_weight + increment
    else realistic_weight
  max 0 nudged

/-! ## Spec-worded reference definitions (for refinement comparison only)

These follow the specification's words, not the source, and exist solely to
be compared against the source-derived definitions above. -/

/-- Spec-worded weight recommendation: scale by the factor, round to the
nearest multiple of the smallest observed increment (default 2.5), nudge by
one full increment only when the rounded value equals the current weight,
never go negative. -/
def specWeightRecommendation (current_weight target_change_pct : ℚ)
    (sets_data : List SetRec) : ℚ :=
  let ideal := current_weight * target_change_pct
  let increment := inferIncrement sets_data
  let rounded := (pyRound (ideal / increment) : ℚ) * increment
  let nudged :=
    if rounded = current_weight then
      if target_change_pct < 1 then current_weight - increment
      else current_weight + increment
    else rounded
  max 0 nudged

/-- `startsWithChars p s`: `p` is an initial segment of `s`. -/
def startsWithChars : List Char → List Char → Bool
  | [], _ => true
  | _ :: _, [] => false
  | p :: ps, c :: cs => p = c && startsWithChars ps cs

/-- `containsChars p s`: `p` occurs as a contiguous substring of `s`. -/
def containsChars (pat : List Char) : List Char → Bool
  | [] => startsWithChars pat []
  | c :: cs => startsWithChars pat (c :: cs) || containsChars pat cs

/-- Spec-worded exclusion filter: drop a row iff its exercise name
case-insensitively CONTAINS some exclusion entry as a substring. -/
def specExcludedFilter (rows : List NamedRec) : List NamedRec :=
  rows.filter (fun r =>
    !(EXCLUDED_EXERCISES.any (fun e =>
      containsChars (lowerName e) (lowerName r.exercise))))

/-- Spec-worded smart-adjustment condition: some of the 3 most recent sessions
has average RPE ≥ 9.5, or the mean of the DEFINED average RPEs over those
3 sessions (when any is defined) is ≥ 9.0. -/
def specSmartCond (sessions : List SessionAgg) : Bool :=
  ((sessions.take 3).any (fun s =>
    match s.avg_rpe with
    | some v => decide (9.5 ≤ v)
    | none => false))
  || (let dv := (sessions.take 3).filterMap (·.avg_rpe)
      decide (dv ≠ []) && decide (9 ≤ dv.sum / (dv.length : ℚ)))

/-! ## Helper lemmas -/

theorem getLast?_mem {α : Type} (l : List α) (a : α) (h : l.getLast? = some a) : a ∈ l := by
  induction l with
  | nil => simp at h
  | cons x xs ih =>
    cases xs with
    | nil =>
      simp [List.getLast?] at h
      simp [h]
    | cons y ys =>
      rw [List.getLast?_cons_cons] at h
      exact List.mem_cons_of_mem _ (ih h)

theorem init_le_foldl_max (x : ℚ) (xs : List ℚ) : x ≤ xs.foldl max x := by
  induction xs generalizing x with
  | nil => simp
  | cons y ys ih => exact le_trans (le_max_left x y) (ih (max x y))

theorem mem_le_foldl_max (x b : ℚ) (xs : List ℚ) (hb : b ∈ xs) : b ≤ xs.foldl max x := by
  induction xs generalizing x with
  | nil => simp at hb
  | cons y ys ih =>
    rcases List.mem_cons.mp hb with h | h
    · subst h
      exact le_trans (le_max_right x b) (init_le_foldl_max _ _)
    · exact ih _ h

theorem mem_rpeValues {sets : List SetRec} {v : ℚ} (h : v ∈ rpeValues sets) :
    ∃ s ∈ sets, s.rpe = some v ∧ v ≠ 0 := by
  unfold rpeValues at h
  rcases List.mem_filterMap.mp h with ⟨s, hs, hv⟩
  refine ⟨s, hs, ?_⟩
  cases hrpe : s.rpe with
  | none => rw [hrpe] at hv; simp at hv
  | some w =>
    rw [hrpe] at hv
    by_cases hw : w = 0
    · simp [hw] at hv
    · simp [hw] at hv
      exact ⟨by rw [hv], by rw [← hv]; exact hw⟩

theorem truthyGe_iff (x : Option ℚ) (t : ℚ) (ht : 0 < t) :
    truthyGe x t = true ↔ ∃ p, x = some p ∧ t ≤ p := by
  cases x with
  | none => simp [truthyGe]
  | some v =>
    simp only [truthyGe, Bool.and_eq_true, decide_eq_true_eq, Option.some.injEq]
    constructor
    · rintro ⟨_, hle⟩
      exact ⟨v, rfl, hle⟩
    · rintro ⟨p, rfl, hle⟩
      exact ⟨by intro h0; rw [h0] at hle; exact absurd (lt_of_lt_of_le ht hle) (lt_irrefl 0), hle⟩

/-! ## Claim theorems -/

/-- C1: for every session with a configured rep range and a defined peak RPE,
peak RPE ≥ 9.5 forces the too-heavy verdict in both the last-session verdict
engine and the evolution verdict engine, regardless of the session's mean
reps (the rep-range check is never reached). -/
theorem c1_rpe_priority (lo hi : ℚ) (sets : List SetRec) (p : ℚ)
    (hp : peakRpe sets = some p) (h95 : 9.5 ≤ p) :
    lastSessionVerdict (some (lo, hi)) sets = Verdict.tooHeavy ∧
    evolutionVerdict (some (lo, hi)) sets = EvoVerdict.tooHeavyRpe := by
  have h0 : p ≠ 0 := by
    intro h
    rw [h] at h95
    norm_num at h95
  constructor
  · simp [lastSessionVerdict, hp, h0, show p ≥ 9.5 from h95]
  · simp [evolutionVerdict, hp, h0, show p ≥ 9.5 from h95]

/-- Witness for C1: squat-style session, 8 mean reps inside range (6, 10),
one set at RPE 9.7. -/
theorem c1_rpe_priority_witness :
    lastSessionVerdict (some (6, 10)) [⟨100, 8, some (97/10)⟩] = Verdict.tooHeavy ∧
    evolutionVerdict (some (6, 10)) [⟨100, 8, some (97/10)⟩] = EvoVerdict.tooHeavyRpe :=
  c1_rpe_priority 6 10 [⟨100, 8, some (97/10)⟩] (97/10)
    (by norm_num [peakRpe, rpeValues, List.filterMap_cons, List.filterMap_nil]) (by norm_num)

/-- C9: in every session summary with all recorded RPE values non-negative,
whenever both peak RPE and final RPE are defined, peak RPE ≥ final RPE ≥ 0
(the peak is the maximum of the collected RPE values and the final RPE is the
last of them). -/
theorem c9_peak_ge_final (sets : List SetRec)
    (hnn : ∀ s ∈ sets, ∀ v, s.rpe = some v → 0 ≤ v)
    (p f : ℚ) (hp : peakRpe sets = some p) (hf : finalRpe sets = some f) :
    f ≤ p ∧ 0 ≤ f := by
  cases hl : rpeValues sets with
  | nil =>
    unfold peakRpe at hp
    rw [hl] at hp
    simp at hp
  | cons x xs =>
    unfold peakRpe at hp
    rw [hl] at hp
    simp only [Option.some.injEq] at hp
    unfold finalRpe at hf
    rw [hl] at hf
    have hfmem : f ∈ x :: xs := getLast?_mem _ _ hf
    have hfval : f ∈ rpeValues sets := by rw [hl]; exact hfmem
    have hle : f ≤ p := by
      rw [← hp]
      rcases List.mem_cons.mp hfmem with h | h
      · subst h; exact init_le_foldl_max _ _
      · exact mem_le_foldl_max _ _ _ h
    have hnn' : 0 ≤ f := by
      rcases mem_rpeValues hfval with ⟨s, hs, hrpe, _⟩
      exact hnn s hs f hrpe
    exact ⟨hle, hnn'⟩

/-- Witness for C9: two-set session with RPEs 8 and 9, peak 9, final 9. -/
theorem c9_peak_ge_final_witness :
    peakRpe [⟨100, 8, some 8⟩, ⟨100, 8, some 9⟩] = some 9 ∧ ((9 : ℚ) ≤ 9 ∧ (0 : ℚ) ≤ 9) := by
  refine ⟨by norm_num [peakRpe, rpeValues, List.filterMap_cons, List.filterMap_nil, max_def],
    c9_peak_ge_final [⟨100, 8, some 8⟩, ⟨100, 8, some 9⟩] ?_ 9 9
      (by norm_num [peakRpe, rpeValues, List.filterMap_cons, List.filterMap_nil, max_def]) (by norm_num [finalRpe, rpeValues, List.filterMap_cons, List.filterMap_nil])⟩
  intro s hs v hv
  rcases List.mem_cons.mp hs with h | h
  · subst h
    simp only [Option.some.injEq] at hv
    rw [← hv]
    norm_num
  · rcases List.mem_cons.mp h with h2 | h2
    · subst h2
      simp only [Option.some.injEq] at hv
      rw [← hv]
      norm_num
    · simp at h2

/-- C10: when every set of a session has RPE missing or exactly 0, peak and
final RPE are undefined, the verdict falls back to the pure rep-range
classification, and the verdict is identical to the one of the same session
with no RPE recorded at all. -/
theorem c10_zero_rpe_indistinguishable (lo hi : ℚ) (sets : List SetRec)
    (hz : ∀ s ∈ sets, s.rpe = none ∨ s.rpe = some 0) :
    peakRpe sets = none ∧ finalRpe sets = none ∧
    lastSessionVerdict (some (lo, hi)) sets = repVerdict lo hi (avgReps sets) ∧
    evolutionVerdict (some (lo, hi)) sets = evoRepVerdict lo hi (avgReps sets) ∧
    lastSessionVerdict (some (lo, hi)) sets
      = lastSessionVerdict (some (lo, hi)) (sets.map (fun s => { s with rpe := none })) := by
  have hrv : rpeValues sets = [] := by
    unfold rpeValues
    rw [List.filterMap_eq_nil_iff]
    intro s hs
    rcases hz s hs with h | h <;> simp [h]
  have hrv2 : rpeValues (sets.map (fun s => { s with rpe := none })) = [] := by
    unfold rpeValues
    rw [List.filterMap_eq_nil_iff]
    intro s hs
    rcases List.mem_map.mp hs with ⟨t, _, ht⟩
    rw [← ht]
  have hpk : peakRpe sets = none := by unfold peakRpe; rw [hrv]
  have hfn : finalRpe sets = none := by unfold finalRpe; rw [hrv]; rfl
  have hpk2 : peakRpe (sets.map (fun s => { s with rpe := none })) = none := by
    unfold peakRpe; rw [hrv2]
  have hreps : avgReps (sets.map (fun s => { s with rpe := none })) = avgReps sets := by
    unfold avgReps
    rw [List.map_map, List.length_map]
    rfl
  refine ⟨hpk, hfn, ?_, ?_, ?_⟩
  · simp [lastSessionVerdict, hpk]
  · simp [evolutionVerdict, hpk]
  · simp [lastSessionVerdict, hpk, hpk2, hreps]

/-- Witness for C10: session of two sets, one RPE 0 and one missing, rep
range (6, 10), mean reps 8: in-range verdict both ways, no RPE defined. -/
theorem c10_zero_rpe_witness :
    peakRpe [⟨100, 8, some 0⟩, ⟨100, 8, none⟩] = none ∧
    finalRpe [⟨100, 8, some 0⟩, ⟨100, 8, none⟩] = none ∧
    lastSessionVerdict (some (6, 10)) [⟨100, 8, some 0⟩, ⟨100, 8, none⟩]
      = repVerdict 6 10 (avgReps [⟨100, 8, some 0⟩, ⟨100, 8, none⟩]) ∧
    evolutionVerdict (some (6, 10)) [⟨100, 8, some 0⟩, ⟨100, 8, none⟩]
      = evoRepVerdict 6 10 (avgReps [⟨100, 8, some 0⟩, ⟨100, 8, none⟩]) ∧
    lastSessionVerdict (some (6, 10)) [⟨100, 8, some 0⟩, ⟨100, 8, none⟩]
      = lastSessionVerdict (some (6, 10))
          (([⟨100, 8, some 0⟩, ⟨100, 8, none⟩] : List SetRec).map
            (fun s => { s with rpe := none })) :=
  c10_zero_rpe_indistinguishable 6 10 [⟨100, 8, some 0⟩, ⟨100, 8, none⟩] (by decide)

theorem dedup_length_one_iff (l : List ℚ) (hne : l ≠ []) :
    l.dedup.length = 1 ↔ ∀ x ∈ l, ∀ y ∈ l, x = y := by
  constructor
  · intro h x hx y hy
    rcases List.length_eq_one.mp h with ⟨a, ha⟩
    have hx' : x ∈ l.dedup := List.mem_dedup.mpr hx
    have hy' : y ∈ l.dedup := List.mem_dedup.mpr hy
    rw [ha] at hx' hy'
    simp at hx' hy'
    rw [hx', hy']
  · intro h
    cases hd : l.dedup with
    | nil => exact absurd ((List.dedup_eq_nil l).mp hd) hne
    | cons a t =>
      cases ht : t with
      | nil => rw [ht] at hd; simp [hd]
      | cons b t2 =>
        exfalso
        rw [ht] at hd
        have ha : a ∈ l := List.mem_dedup.mp (by rw [hd]; exact List.mem_cons_self _ _)
        have hb : b ∈ l := List.mem_dedup.mp (by rw [hd]; simp)
        have hnd : l.dedup.Nodup := List.nodup_dedup l
        rw [hd] at hnd
        have hab : a ≠ b := by
          intro e
          subst e
          exact (List.nodup_cons.mp hnd).1 (by simp)
        exact hab (h a ha b hb)

theorem three_all_eq (a b c : ℚ) :
    (∀ x ∈ ([a, b, c] : List ℚ), ∀ y ∈ ([a, b, c] : List ℚ), x = y) ↔ a = b ∧ b = c := by
  constructor
  · intro h
    exact ⟨h a (by simp) b (by simp), h b (by simp) c (by simp)⟩
  · rintro ⟨rfl, rfl⟩
    intro x hx y hy
    simp at hx hy
    rcases hx with rfl | rfl | rfl <;> rcases hy with rfl | rfl | rfl <;> rfl

/-- One-set day group with a given average weight, used to exhibit the
perturbation part of the stagnation property. -/
def wGroup (d : ℤ) (w : ℚ) : DayGroup := ⟨d, [⟨w, 8, none⟩]⟩

/-- C5: with at least 3 sessions in the progression window, `is_stagnant`
holds iff the 3 most recent per-session average weights coincide; with
exactly 2 sessions it is false; and starting from 3 equal weights, changing
any single one of them to a different value breaks stagnation. -/
theorem c5_stagnation :
    (∀ (g0 g1 g2 : DayGroup) (rest : List DayGroup) (r : ProgRecord),
        exerciseProgression (g0 :: g1 :: g2 :: rest) = some r →
        (r.is_stagnant = true ↔
          (avgWeight g0.sets = avgWeight g1.sets ∧ avgWeight g1.sets = avgWeight g2.sets)))
  ∧ (∀ (g0 g1 : DayGroup) (r : ProgRecord),
        exerciseProgression [g0, g1] = some r → r.is_stagnant = false)
  ∧ (∀ w w' : ℚ, w' ≠ w →
        ((exerciseProgression [wGroup 3 w, wGroup 2 w, wGroup 1 w]).map (·.is_stagnant)
            = some true
        ∧ (exerciseProgression [wGroup 3 w', wGroup 2 w, wGroup 1 w]).map (·.is_stagnant)
            = some false
        ∧ (exerciseProgression [wGroup 3 w, wGroup 2 w', wGroup 1 w]).map (·.is_stagnant)
            = some false
        ∧ (exerciseProgression [wGroup 3 w, wGroup 2 w, wGroup 1 w']).map (·.is_stagnant)
            = some false)) := by
  have hstag : ∀ (g0 g1 g2 : DayGroup) (rest : List DayGroup) (r : ProgRecord),
      exerciseProgression (g0 :: g1 :: g2 :: rest) = some r →
      (r.is_stagnant = true ↔
        (avgWeight g0.sets = avgWeight g1.sets ∧ avgWeight g1.sets = avgWeight g2.sets)) := by
    intro g0 g1 g2 rest r hr
    simp only [exerciseProgression, List.take_succ_cons, List.map_cons,
      Option.some.injEq] at hr
    subst hr
    simp only [List.take_succ_cons, List.take_zero, List.map_cons, List.map_nil,
      Bool.and_eq_true, decide_eq_true_eq]
    rw [dedup_length_one_iff _ (by simp), three_all_eq]
    simp [sessionAgg]
  refine ⟨hstag, ?_, ?_⟩
  · intro g0 g1 r hr
    simp only [exerciseProgression, List.take_succ_cons, List.take_nil, List.map_cons,
      List.map_nil, Option.some.injEq] at hr
    subst hr
    simp
  · intro w w' hne
    have h1 : ∀ a b c : ℚ,
        (exerciseProgression [wGroup 3 a, wGroup 2 b, wGroup 1 c]).map (·.is_stagnant)
          = some (decide (a = b ∧ b = c)) := by
      intro a b c
      simp only [exerciseProgression, List.take_succ_cons, List.take_nil, List.map_cons,
        List.map_nil, Option.map_some', wGroup, sessionAgg]
      simp only [avgWeight, List.map_cons, List.map_nil, List.sum_cons, List.sum_nil,
        List.length_cons, List.length_nil]
      norm_num
      rw [show (decide (a = b) && decide (b = c)) = decide (a = b ∧ b = c) from
        (Bool.decide_and _ _).symm, decide_eq_decide]
      exact (dedup_length_one_iff _ (by simp)).trans (three_all_eq a b c)
    refine ⟨?_, ?_, ?_, ?_⟩ <;> rw [h1] <;> simp [hne, Ne.symm hne]

/-- Witness for C5: three sessions at weight 100 are stagnant, and changing
any single one of the weights to 90 breaks stagnation. -/
theorem c5_stagnation_witness :
    (exerciseProgression [wGroup 3 100, wGroup 2 100, wGroup 1 100]).map (·.is_stagnant)
        = some true
    ∧ (exerciseProgression [wGroup 3 90, wGroup 2 100, wGroup 1 100]).map (·.is_stagnant)
        = some false
    ∧ (exerciseProgression [wGroup 3 100, wGroup 2 90, wGroup 1 100]).map (·.is_stagnant)
        = some false
    ∧ (exerciseProgression [wGroup 3 100, wGroup 2 100, wGroup 1 90]).map (·.is_stagnant)
        = some false :=
  c5_stagnation.2.2 100 90 (by norm_num)

theorem length_insertDesc (d : ℤ) (l : List ℤ) : (insertDesc d l).length = l.length + 1 := by
  induction l with
  | nil => rfl
  | cons x xs ih =>
    simp only [insertDesc]
    split
    · simp
    · simp [ih]

theorem length_sortDesc (l : List ℤ) : (sortDesc l).length = l.length := by
  induction l with
  | nil => rfl
  | cons x xs ih => simp [sortDesc, List.foldr_cons, length_insertDesc]
                    rw [← sortDesc]
                    simp [ih]

theorem length_dayGroups (records : List (ℤ × SetRec)) :
    (dayGroups records).length = (records.map Prod.fst).dedup.length := by
  simp [dayGroups, uniqueDatesDesc, length_sortDesc]

/-- C7: an exercise with fewer than 2 distinct session dates produces no
progression entry: the tracker's per-exercise computation totally evaluates
to `none` rather than failing. -/
theorem c7_insufficient_sessions (records : List (ℤ × SetRec))
    (h : (records.map Prod.fst).dedup.length < 2) :
    exerciseProgressionOfRecords records = none := by
  unfold exerciseProgressionOfRecords
  have hlen : (dayGroups records).length < 2 := by rw [length_dayGroups]; exact h
  rcases hg : dayGroups records with _ | ⟨g, gs⟩
  · rfl
  · rcases gs with _ | ⟨g2, gs2⟩
    · simp [exerciseProgression]
    · exact absurd hlen (by rw [hg]; simp)

/-- Witness for C7: two sets on the same date (one distinct date), no entry. -/
theorem c7_insufficient_sessions_witness :
    exerciseProgressionOfRecords [(1, ⟨100, 8, none⟩), (1, ⟨95, 8, none⟩)] = none :=
  c7_insufficient_sessions [(1, ⟨100, 8, none⟩), (1, ⟨95, 8, none⟩)] (by decide)

/-- C8: division guards.  In every progression record, the weight-change
percentage is 0 when the baseline (second-newest) average weight is 0 and the
trend percentage is 0 when the oldest windowed average weight is 0; the
efficiency score is 0 when there are no scoreable transitions, equals
`100 × good / (good + missed)` otherwise, and always lies in `[0, 100]`.
All computations are total: no division fault can occur. -/
theorem c8_division_guards :
    (∀ (groups : List DayGroup) (r : ProgRecord), exerciseProgression groups = some r →
        ((r.sessions[1]?.map (·.avg_weight) = some 0) → r.weight_change_pct = 0)
      ∧ (3 ≤ r.sessions.length → (r.sessions.getLast?.map (·.avg_weight) = some 0) →
          r.trend_change_pct = 0))
  ∧ (∀ sessions : List SessAnalysis,
        0 ≤ efficiencyScore sessions ∧ efficiencyScore sessions ≤ 100
      ∧ (0 < (auditCounts sessions).1 + (auditCounts sessions).2 →
          efficiencyScore sessions
            = 100 * ((auditCounts sessions).1 : ℚ)
                / (((auditCounts sessions).1 : ℚ) + ((auditCounts sessions).2 : ℚ)))
      ∧ ((auditCounts sessions).1 + (auditCounts sessions).2 = 0 →
          efficiencyScore sessions = 0)) := by
  constructor
  · intro groups r hr
    rcases groups with _ | ⟨g0, _ | ⟨g1, gs⟩⟩
    · simp [exerciseProgression] at hr
    · simp [exerciseProgression] at hr
    · simp only [exerciseProgression, List.take_succ_cons, List.map_cons,
        Option.some.injEq] at hr
      subst hr
      constructor
      · intro hbase
        simp only [List.getElem?_cons_succ, List.getElem?_cons_zero, Option.map_some',
          Option.some.injEq] at hbase
        simp [hbase]
      · intro hlen hlast
        rcases hL : (sessionAgg g0.sets :: sessionAgg g1.sets ::
            (gs.take 2).map (fun g => sessionAgg g.sets)).getLast? with _ | last
        · rw [List.getLast?_eq_none_iff] at hL
          exact absurd hL (by simp)
        · rw [hL, Option.map_some', Option.some.injEq] at hlast
          show (if 3 ≤ (sessionAgg g0.sets :: sessionAgg g1.sets ::
              (gs.take 2).map (fun g => sessionAgg g.sets)).length then _ else _) = (0 : ℚ)
          rw [if_pos hlen, hL, Option.getD_some, hlast]
          norm_num
  · intro sessions
    have hbase : efficiencyScore sessions =
        if (auditCounts sessions).1 + (auditCounts sessions).2 > 0 then
          ((auditCounts sessions).1 : ℚ)
            / (((auditCounts sessions).1 : ℚ) + ((auditCounts sessions).2 : ℚ)) * 100
        else 0 := rfl
    by_cases hgm : 0 < (auditCounts sessions).1 + (auditCounts sessions).2
    · have hpos : (0 : ℚ)
          < ((auditCounts sessions).1 : ℚ) + ((auditCounts sessions).2 : ℚ) := by
        exact_mod_cast hgm
      rw [hbase, if_pos hgm]
      refine ⟨by positivity, ?_, fun _ => by ring, fun h0 => absurd h0 (by omega)⟩
      have hle : ((auditCounts sessions).1 : ℚ)
          / (((auditCounts sessions).1 : ℚ) + ((auditCounts sessions).2 : ℚ)) ≤ 1 := by
        rw [div_le_one hpos]
        exact le_add_of_nonneg_right (by positivity)
      calc ((auditCounts sessions).1 : ℚ)
            / (((auditCounts sessions).1 : ℚ) + ((auditCounts sessions).2 : ℚ)) * 100
          ≤ 1 * 100 := mul_le_mul_of_nonneg_right hle (by norm_num)
        _ = 100 := by norm_num
    · rw [hbase, if_neg hgm]
      exact ⟨le_refl 0, by norm_num, fun h => absurd h hgm, fun _ => rfl⟩

/-- Concrete progression record used by the C8 witness: baseline and oldest
windowed weight are both 0. -/
def c8Record : ProgRecord :=
  { sessions := [⟨5, 8, none, 40⟩, ⟨0, 8, none, 0⟩, ⟨0, 8, none, 0⟩]
    weight_change := 5, weight_change_pct := 0, volume_change := 40
    volume_change_pct := 0, trend_change_pct := 0, is_stagnant := false
    sessions_count := 3 }

/-- Witness for C8: a 3-session history with zero baseline and zero oldest
weight yields 0 percentages, and one good transition out of one yields the
exact ratio form of the efficiency score. -/
theorem c8_division_guards_witness :
    exerciseProgression [⟨3, [⟨5, 8, none⟩]⟩, ⟨2, [⟨0, 8, none⟩]⟩, ⟨1, [⟨0, 8, none⟩]⟩]
        = some c8Record
    ∧ c8Record.weight_change_pct = 0
    ∧ c8Record.trend_change_pct = 0
    ∧ efficiencyScore [⟨95, some (48/5), EvoVerdict.optimal⟩, ⟨100, none, EvoVerdict.optimal⟩]
        = 100 * ((auditCounts [⟨95, some (48/5), EvoVerdict.optimal⟩,
            ⟨100, none, EvoVerdict.optimal⟩]).1 : ℚ)
          / (((auditCounts [⟨95, some (48/5), EvoVerdict.optimal⟩,
              ⟨100, none, EvoVerdict.optimal⟩]).1 : ℚ)
            + ((auditCounts [⟨95, some (48/5), EvoVerdict.optimal⟩,
              ⟨100, none, EvoVerdict.optimal⟩]).2 : ℚ)) := by
  have hrec : exerciseProgression
      [⟨3, [⟨5, 8, none⟩]⟩, ⟨2, [⟨0, 8, none⟩]⟩, ⟨1, [⟨0, 8, none⟩]⟩] = some c8Record := by
    norm_num [exerciseProgression, sessionAgg, avgWeight, avgReps, pandasMeanRpe, c8Record,
      List.getLast?, List.dedup_cons_of_not_mem, List.dedup_cons_of_mem]
  have h := c8_division_guards.1
    [⟨3, [⟨5, 8, none⟩]⟩, ⟨2, [⟨0, 8, none⟩]⟩, ⟨1, [⟨0, 8, none⟩]⟩] c8Record hrec
  exact ⟨hrec, h.1 (by norm_num [c8Record]),
    h.2 (by norm_num [c8Record]) (by norm_num [c8Record, List.getLast?]),
    (c8_division_guards.2 [⟨95, some (48/5), EvoVerdict.optimal⟩,
        ⟨100, none, EvoVerdict.optimal⟩]).2.2.1
      (by norm_num [auditCounts, actualAction, decisionIsGood, optimalAction, truthyGe])⟩

theorem truthyGe9_iff (x : Option ℚ) :
    truthyGe x 9 = true ↔ ∃ p, x = some p ∧ 9 ≤ p :=
  truthyGe_iff x 9 (by norm_num)

/-- C2: in the decision-quality auditor, for a consecutive pair whose older
verdict implies the maintain action: maintained or increased actual actions
are good decisions, and a decreased actual action is good exactly when the
older or the newer session has a defined peak RPE ≥ 9.0; otherwise the
transition is a missed opportunity. -/
theorem c2_maintain_audit (older newer : SessAnalysis)
    (hv : optimalAction older.verdict = OptAction.maintain) :
    decisionIsGood (optimalAction older.verdict)
        (actualAction (newer.avg_weight - older.avg_weight)) newer.peak_rpe older.peak_rpe
      = true
    ↔ (actualAction (newer.avg_weight - older.avg_weight) = Action.maintained
      ∨ actualAction (newer.avg_weight - older.avg_weight) = Action.increased
      ∨ (actualAction (newer.avg_weight - older.avg_weight) = Action.decreased
        ∧ ((∃ p, newer.peak_rpe = some p ∧ 9 ≤ p)
          ∨ (∃ p, older.peak_rpe = some p ∧ 9 ≤ p)))) := by
  rw [hv]
  cases hact : actualAction (newer.avg_weight - older.avg_weight) with
  | increased => simp [decisionIsGood]
  | maintained => simp [decisionIsGood]
  | decreased =>
    simp [decisionIsGood, truthyGe9_iff]

/-- Witness for C2: older session optimal at peak RPE 9.6, newer session
5 kg lighter: the decrease is a good decision. -/
theorem c2_maintain_audit_witness :
    decisionIsGood
        (optimalAction (SessAnalysis.mk 100 (some (48/5)) EvoVerdict.optimal).verdict)
        (actualAction ((SessAnalysis.mk 95 none EvoVerdict.inRange).avg_weight
          - (SessAnalysis.mk 100 (some (48/5)) EvoVerdict.optimal).avg_weight))
        (SessAnalysis.mk 95 none EvoVerdict.inRange).peak_rpe
        (SessAnalysis.mk 100 (some (48/5)) EvoVerdict.optimal).peak_rpe = true := by
  rw [c2_maintain_audit (SessAnalysis.mk 100 (some (48/5)) EvoVerdict.optimal)
    (SessAnalysis.mk 95 none EvoVerdict.inRange) (by rfl)]
  refine Or.inr (Or.inr ⟨?_, Or.inr ⟨48/5, rfl, by norm_num⟩⟩)
  norm_num [actualAction]

/-- The amended C3 smart-adjustment condition: some of the 3 most recent
sessions has a defined average RPE ≥ 9.5, or at least one of those 3 sessions
has a defined NONZERO average RPE and the mean of those defined nonzero
average RPEs is ≥ 9.0 — a session whose average RPE is exactly 0 contributes
nothing (the source's Python truthiness check skips it). -/
def amendedSmartCond (sessions : List SessionAgg) : Prop :=
  (∃ s ∈ sessions.take 3, ∃ v, s.avg_rpe = some v ∧ 9.5 ≤ v)
  ∨ (let dv := (sessions.take 3).filterMap (fun s => nonzeroRpe s.avg_rpe)
     dv ≠ [] ∧ 9 ≤ dv.sum / (dv.length : ℚ))

theorem highRpeDetected_iff (sessions : List SessionAgg) (h2 : 2 ≤ sessions.length) :
    highRpeDetected sessions = true ↔ amendedSmartCond sessions := by
  unfold highRpeDetected amendedSmartCond
  rw [if_pos h2]
  by_cases hany : (sessions.take 3).any (fun s => truthyGe s.avg_rpe 9.5) = true
  · rw [if_pos hany]
    simp only [true_iff]
    left
    rcases List.any_eq_true.mp hany with ⟨s, hs, ht⟩
    rcases (truthyGe_iff _ _ (by norm_num)).mp ht with ⟨p, hp, h95⟩
    exact ⟨s, hs, p, hp, h95⟩
  · rw [if_neg hany]
    constructor
    · intro h
      right
      simp only [Bool.and_eq_true, decide_eq_true_eq] at h
      exact h
    · rintro (⟨s, hs, v, hv, h95⟩ | h)
      · exact absurd (List.any_eq_true.mpr
          ⟨s, hs, (truthyGe_iff _ _ (by norm_num)).mpr ⟨v, hv, h95⟩⟩) hany
      · simp only [Bool.and_eq_true, decide_eq_true_eq]
        exact h

/-- C3 (amended): a non-stagnant progression record with trend below −2% is
classified as a smart adjustment exactly when the amended RPE condition holds
(any of the last 3 sessions at average RPE ≥ 9.5, or mean of the defined
nonzero average RPEs of those sessions ≥ 9.0), and is placed in the
regressing list exactly otherwise. -/
theorem c3_smart_adjustment (r : ProgRecord) (h2 : 2 ≤ r.sessions.length)
    (hstag : r.is_stagnant = false) (htrend : r.trend_change_pct < -2) :
    (classifyProgression r = ProgClass.smartAdjustment ↔ amendedSmartCond r.sessions)
  ∧ (classifyProgression r = ProgClass.regressing ↔ ¬ amendedSmartCond r.sessions) := by
  have hng : ¬ (r.trend_change_pct > 2) := by linarith
  have hclass : classifyProgression r =
      (if highRpeDetected r.sessions then ProgClass.smartAdjustment
       else ProgClass.regressing) := by
    unfold classifyProgression
    rw [hstag]
    simp only [Bool.false_eq_true, if_false]
    rw [if_neg hng, if_pos htrend]
  rw [hclass]
  by_cases hh : highRpeDetected r.sessions = true
  · rw [if_pos hh]
    have hc := (highRpeDetected_iff r.sessions h2).mp hh
    exact ⟨⟨fun _ => hc, fun _ => rfl⟩,
      ⟨fun h => absurd h (by decide), fun h => absurd hc h⟩⟩
  · rw [if_neg hh]
    have hc : ¬ amendedSmartCond r.sessions :=
      fun hcond => hh ((highRpeDetected_iff r.sessions h2).mpr hcond)
    exact ⟨⟨fun h => absurd h (by decide), fun h => absurd h hc⟩,
      ⟨fun _ => hc, fun _ => rfl⟩⟩

/-- Set records for the C3 counterexample: 4 single-set sessions, average
weights 97, 100, 100, 100 (newest first), average RPEs 9.2, 9.2, 0, none. -/
def c3Records : List (ℤ × SetRec) :=
  [(4, ⟨97, 10, some (46/5)⟩), (3, ⟨100, 10, some (46/5)⟩),
   (2, ⟨100, 10, some 0⟩), (1, ⟨100, 10, none⟩)]

/-- The progression record the tracker computes from `c3Records`. -/
def c3Record : ProgRecord :=
  { sessions := [⟨97, 10, some (46/5), 970⟩, ⟨100, 10, some (46/5), 1000⟩,
                 ⟨100, 10, some 0, 1000⟩, ⟨100, 10, none, 1000⟩]
    weight_change := -3, weight_change_pct := -3, volume_change := -30
    volume_change_pct := -3, trend_change_pct := -3, is_stagnant := false
    sessions_count := 4 }

/-- C3 counterexample: a reachable progression record with trend −3% whose
3 most recent average RPEs are 9.2, 9.2 and 0.  No session reaches 9.5 and
the mean of the DEFINED average RPEs is (9.2+9.2+0)/3 ≈ 6.13 < 9, so the
claim as stated puts the exercise in the regressing list; the code classifies
it as a smart adjustment because its mean skips the falsy 0. -/
theorem c3_counterexample :
    exerciseProgressionOfRecords c3Records = some c3Record
    ∧ c3Record.trend_change_pct < -2
    ∧ classifyProgression c3Record = ProgClass.smartAdjustment
    ∧ specSmartCond c3Record.sessions = false := by
  refine ⟨?_, by norm_num [c3Record], ?_, ?_⟩
  · norm_num [exerciseProgressionOfRecords, dayGroups, uniqueDatesDesc, sortDesc, insertDesc,
      exerciseProgression, sessionAgg, avgWeight, avgReps, pandasMeanRpe, c3Records, c3Record,
      List.getLast?, List.dedup_cons_of_not_mem, List.dedup_cons_of_mem,
      List.filterMap_cons, List.filterMap_nil]
  · norm_num [classifyProgression, highRpeDetected, truthyGe, nonzeroRpe, c3Record,
      List.filterMap_cons, List.filterMap_nil]
    intro h
    exact absurd h (by simp)
  · norm_num [specSmartCond, truthyGe, c3Record, List.filterMap_cons, List.filterMap_nil]

/-- Witness for C3 (amended) at the concrete record of the counterexample. -/
theorem c3_smart_adjustment_witness :
    (classifyProgression c3Record = ProgClass.smartAdjustment
      ↔ amendedSmartCond c3Record.sessions)
  ∧ (classifyProgression c3Record = ProgClass.regressing
      ↔ ¬ amendedSmartCond c3Record.sessions) :=
  c3_smart_adjustment c3Record (by norm_num [c3Record]) (by norm_num [c3Record])
    (by norm_num [c3Record])

/-- C6 (amended): the exclusion filter drops exactly those set records whose
lower-cased exercise name EQUALS the lower-casing of some exclusion entry
(exact case-insensitive match, not substring containment); all other records
pass through unchanged and in order. -/
theorem c6_exclusion_filter (rows : List NamedRec) :
    (filter_excluded_exercises rows).Sublist rows
  ∧ (∀ r : NamedRec, r ∈ filter_excluded_exercises rows ↔
      (r ∈ rows ∧ ¬ ∃ e ∈ EXCLUDED_EXERCISES, lowerName e = lowerName r.exercise)) := by
  constructor
  · exact List.filter_sublist rows
  · intro r
    rw [filter_excluded_exercises, List.mem_filter]
    simp [List.mem_map]

/-- C6 counterexample: the record named "Treadmill Run" case-insensitively
CONTAINS the exclusion entry "Treadmill", so the claim says it is dropped;
the source filter keeps it because it tests exact case-insensitive equality
against the exclusion list, not substring containment. -/
theorem c6_counterexample :
    filter_excluded_exercises [⟨"Treadmill Run".toList, ⟨0, 0, none⟩⟩]
        = [⟨"Treadmill Run".toList, ⟨0, 0, none⟩⟩]
    ∧ ("Treadmill".toList ∈ EXCLUDED_EXERCISES
        ∧ containsChars (lowerName "Treadmill".toList)
            (lowerName "Treadmill Run".toList) = true)
    ∧ specExcludedFilter [⟨"Treadmill Run".toList, ⟨0, 0, none⟩⟩] = [] := by
  exact ⟨by decide, ⟨by decide, by decide⟩, by decide⟩

/-- C4 (amended): the recommendation rounds the scaled weight to the nearest
2.5 kg when the inferred increment is at least 2.5 kg, and to the nearest
1 kg otherwise (NOT to the inferred increment itself); it nudges by a full
increment whenever the rounded value lies within half an increment of the
current weight (NOT only on exact equality); and the result is clamped at 0,
hence never negative. -/
theorem c4_weight_recommendation (cw pct : ℚ) (sets : List SetRec) :
    0 ≤ get_realistic_weight_recommendation cw pct sets
  ∧ (∀ rounded : ℚ,
      rounded = (if 2.5 ≤ inferIncrement sets
          then (pyRound (cw * pct / 2.5) : ℚ) * 2.5
          else (pyRound (cw * pct) : ℚ)) →
      ((2 * |rounded - cw| < inferIncrement sets →
          get_realistic_weight_recommendation cw pct sets
            = if pct < 1 then max 0 (cw - inferIncrement sets)
              else max 0 (cw + inferIncrement sets))
      ∧ (inferIncrement sets ≤ 2 * |rounded - cw| →
          get_realistic_weight_recommendation cw pct sets = max 0 rounded))) := by
  constructor
  · simp only [get_realistic_weight_recommendation]
    exact le_max_left 0 _
  · intro rounded hr
    simp only [get_realistic_weight_recommendation]
    rw [← hr]
    constructor
    · intro hlt
      have hcond : |rounded - cw| < inferIncrement sets * (1/2) := by linarith
      rw [if_pos hcond]
      by_cases hp : pct < 1
      · rw [if_pos hp, if_pos hp]
      · rw [if_neg hp, if_neg hp]
    · intro hge
      have hcond : ¬ (|rounded - cw| < inferIncrement sets * (1/2)) := by
        intro h
        linarith
      rw [if_neg hcond]

/-- C4 counterexample: current weight 22 kg, factor 1.05 (ideal 23.1 kg), set
weights 20 and 25 so the observed increment is 5 kg.  The claim's rule rounds
23.1 to the nearest 5 kg giving 25, which differs from 22, so no nudge: 25.
The source rounds to the nearest 2.5 kg giving 22.5, which is within half an
increment of 22, so it nudges a full increment up: 27. -/
theorem c4_counterexample :
    get_realistic_weight_recommendation 22 (21/20) [⟨20, 10, none⟩, ⟨25, 10, none⟩] = 27
    ∧ specWeightRecommendation 22 (21/20) [⟨20, 10, none⟩, ⟨25, 10, none⟩] = 25 := by
  constructor
  · norm_num [get_realistic_weight_recommendation, inferIncrement, sortAsc, insertAsc,
      consecDiffs, pyRound, List.dedup_cons_of_not_mem, List.dedup_cons_of_mem,
      Int.floor_eq_iff]
    rw [show |(1 : ℚ)/2| = 1/2 from abs_of_nonneg (by norm_num)]
    norm_num
  · norm_num [specWeightRecommendation, inferIncrement, sortAsc, insertAsc,
      consecDiffs, pyRound, List.dedup_cons_of_not_mem, List.dedup_cons_of_mem,
      Int.floor_eq_iff]

/-- Witness for C4 (amended) at the counterexample's input: the rounded value
22.5 is within half the 5 kg increment of the current 22 kg, so the result is
the nudged weight 22 + 5. -/
theorem c4_weight_recommendation_witness :
    0 ≤ get_realistic_weight_recommendation 22 (21/20) [⟨20, 10, none⟩, ⟨25, 10, none⟩]
    ∧ get_realistic_weight_recommendation 22 (21/20) [⟨20, 10, none⟩, ⟨25, 10, none⟩]
      = if (21/20 : ℚ) < 1
        then max 0 (22 - inferIncrement [⟨20, 10, none⟩, ⟨25, 10, none⟩])
        else max 0 (22 + inferIncrement [⟨20, 10, none⟩, ⟨25, 10, none⟩]) := by
  refine ⟨(c4_weight_recommendation 22 (21/20) [⟨20, 10, none⟩, ⟨25, 10, none⟩]).1, ?_⟩
  exact ((c4_weight_recommendation 22 (21/20) [⟨20, 10, none⟩, ⟨25, 10, none⟩]).2 (45/2)
      (by norm_num [inferIncrement, sortAsc, insertAsc, consecDiffs, pyRound,
        List.dedup_cons_of_not_mem, List.dedup_cons_of_mem, Int.floor_eq_iff])).1
    (by
      rw [show |(45 : ℚ)/2 - 22| = 1/2 from by
        rw [show (45 : ℚ)/2 - 22 = 1/2 by norm_num]
        exact abs_of_nonneg (by norm_num)]
      norm_num [inferIncrement, sortAsc, insertAsc, consecDiffs,
        List.dedup_cons_of_not_mem, List.dedup_cons_of_mem])

end HevyCoach
